import Mathlib

/-!
Verification of the Bugman leaderboard backend (`src/server.py`).

The development shallowly embeds the server's authentication pipeline
(`check_telegram_auth_raw`), the score-submission handler (`post_score`) and
the leaderboard query (`get_leaderboard`) as executable Lean functions, and
proves the specification's claims about them.

Conventions of the embedding:
* Python byte strings are `List Nat` (each entry < 256); text is `String`,
  UTF-8 encoded by `strBytes`.
* `hashlib.sha256` / `hmac.new(..., hashlib.sha256)` from the Python standard
  library are implemented concretely (FIPS 180-4 / RFC 2104) over `Nat` with
  explicit reduction mod 2^32, so that witnesses can evaluate real digests.
* Machine timestamps (`datetime.utcnow`) are integers counting microseconds,
  the resolution of `datetime`; the only arithmetic the server performs on
  them is subtraction and comparison with the 1-second rate-limit interval,
  so the check `(now - last).total_seconds() < 1` is `now - last < 1000000`.
* `json.loads` is modelled by an executable recursive-descent reader of the
  JSON grammar (objects, arrays, strings with the common escapes, integer
  numerals, `true`/`false`/`null`); Python exceptions are `Option`/failure
  values.
* The SQLite table `players` is a list of rows in storage order; the two
  upsert statements and the `ORDER BY ... LIMIT ? OFFSET ?` query are embedded
  with SQLite's documented semantics (negative `LIMIT` means unlimited,
  negative `OFFSET` means zero).
-/

set_option maxRecDepth 100000
set_option maxHeartbeats 1000000

namespace Bugman

/-! ### SHA-256 (FIPS 180-4), over `Nat` mod 2^32 -/

/-- 2^32; all word arithmetic is reduced modulo this. -/
def M32 : Nat := 4294967296

/-- Right rotation of a 32-bit word. -/
def rotr (n x : Nat) : Nat :=
  ((x >>> n) ||| (x <<< (32 - n))) % M32

/-- The 64 SHA-256 round constants. -/
def shaK : List Nat :=
  [1116352408, 1899447441, 3049323471, 3921009573, 961987163,
   1508970993, 2453635748, 2870763221, 3624381080, 310598401,
   607225278, 1426881987, 1925078388, 2162078206, 2614888103,
   3248222580, 3835390401, 4022224774, 264347078, 604807628,
   770255983, 1249150122, 1555081692, 1996064986, 2554220882,
   2821834349, 2952996808, 3210313671, 3336571891, 3584528711,
   113926993, 338241895, 666307205, 773529912, 1294757372,
   1396182291, 1695183700, 1986661051, 2177026350, 2456956037,
   2730485921, 2820302411, 3259730800, 3345764771, 3516065817,
   3600352804, 4094571909, 275423344, 430227734, 506948616,
   659060556, 883997877, 958139571, 1322822218, 1537002063,
   1747873779, 1955562222, 2024104815, 2227730452, 2361852424,
   2428436474, 2756734187, 3204031479, 3329325298]

/-- The SHA-256 initial hash state. -/
def shaH0 : List Nat :=
  [1779033703, 3144134277, 1013904242, 2773480762, 1359893119,
   2600822924, 528734635, 1541459225]

/-- Merkle–Damgård padding: append `0x80`, zeros, and the 64-bit big-endian
bit length, reaching a multiple of 64 bytes. -/
def shaPad (msg : List Nat) : List Nat :=
  let len := msg.length
  let bitLen := len * 8
  let zeros := (55 + 64 - len % 64) % 64
  msg ++ [0x80] ++ List.replicate zeros 0 ++
    [(bitLen >>> 56) % 256, (bitLen >>> 48) % 256, (bitLen >>> 40) % 256, (bitLen >>> 32) % 256,
     (bitLen >>> 24) % 256, (bitLen >>> 16) % 256, (bitLen >>> 8) % 256, bitLen % 256]

/-- Group bytes into big-endian 32-bit words. -/
def toWords : List Nat → List Nat
  | a :: b :: c :: d :: rest => (((a * 256 + b) * 256 + c) * 256 + d) :: toWords rest
  | _ => []

/-- Extend the 16 block words to the 64-entry message schedule. -/
def extendWords : Nat → List Nat → List Nat
  | 0, ws => ws
  | n + 1, ws =>
    let len := ws.length
    let w15 := ws.getD (len - 15) 0
    let w2 := ws.getD (len - 2) 0
    let w16 := ws.getD (len - 16) 0
    let w7 := ws.getD (len - 7) 0
    let s0 := (rotr 7 w15) ^^^ (rotr 18 w15) ^^^ (w15 >>> 3)
    let s1 := (rotr 17 w2) ^^^ (rotr 19 w2) ^^^ (w2 >>> 10)
    extendWords n (ws ++ [(w16 + s0 + w7 + s1) % M32])

/-- One SHA-256 compression round on the eight working variables. -/
def shaRound (st : List Nat) (k w : Nat) : List Nat :=
  match st with
  | [a, b, c, d, e, f, g, h] =>
    let S1 := (rotr 6 e) ^^^ (rotr 11 e) ^^^ (rotr 25 e)
    let ch := (e &&& f) ^^^ ((e ^^^ (M32 - 1)) &&& g)
    let t1 := (h + S1 + ch + k + w) % M32
    let S0 := (rotr 2 a) ^^^ (rotr 13 a) ^^^ (rotr 22 a)
    let mj := (a &&& b) ^^^ (a &&& c) ^^^ (b &&& c)
    let t2 := (S0 + mj) % M32
    [(t1 + t2) % M32, a, b, c, (d + t1) % M32, e, f, g]
  | st => st

/-- Compress one 64-byte block into the hash state. -/
def shaCompress (h : List Nat) (block : List Nat) : List Nat :=
  let ws := extendWords 48 (toWords block)
  let fin := (shaK.zip ws).foldl (fun st kw => shaRound st kw.1 kw.2) h
  (h.zip fin).map (fun p => (p.1 + p.2) % M32)

/-- Split a padded message into 64-byte blocks (fuel-recursive so that it
reduces in the kernel). -/
def chunksAux : Nat → List Nat → List (List Nat)
  | 0, _ => []
  | _, [] => []
  | n + 1, l => l.take 64 :: chunksAux n (l.drop 64)

/-- Split a padded message into 64-byte blocks. -/
def chunks (l : List Nat) : List (List Nat) :=
  chunksAux l.length l

/-- SHA-256 digest (32 bytes) of a byte string; models `hashlib.sha256`. -/
def sha256 (msg : List Nat) : List Nat :=
  let hs := (chunks (shaPad msg)).foldl shaCompress shaH0
  hs.flatMap (fun w => [(w >>> 24) % 256, (w >>> 16) % 256, (w >>> 8) % 256, w % 256])

/-- Lowercase hexadecimal digit. -/
def hexChar (n : Nat) : Char :=
  if n < 10 then Char.ofNat (48 + n) else Char.ofNat (87 + n)

/-- Lowercase hex rendering of a byte string; models `.hexdigest()`. -/
def hexdigest (bs : List Nat) : String :=
  String.mk (bs.flatMap (fun b => [hexChar (b / 16), hexChar (b % 16)]))

/-- UTF-8 encoding of a string; models Python's `str.encode()`. -/
def strBytes (s : String) : List Nat :=
  s.data.flatMap (fun c =>
    let n := c.toNat
    if n < 0x80 then [n]
    else if n < 0x800 then [0xc0 + n / 64, 0x80 + n % 64]
    else if n < 0x10000 then [0xe0 + n / 4096, 0x80 + (n / 64) % 64, 0x80 + n % 64]
    else [0xf0 + n / 262144, 0x80 + (n / 4096) % 64, 0x80 + (n / 64) % 64, 0x80 + n % 64])

/-- HMAC (RFC 2104) with SHA-256 and 64-byte block size; models
`hmac.new(key, msg, hashlib.sha256).digest()`. -/
def hmacSha256 (key msg : List Nat) : List Nat :=
  let k0 := if key.length > 64 then sha256 key else key
  let kp := k0 ++ List.replicate (64 - k0.length) 0
  let ipad := kp.map (fun b => b ^^^ 0x36)
  let opad := kp.map (fun b => b ^^^ 0x5c)
  sha256 (opad ++ sha256 (ipad ++ msg))

/-- The signature the server computes for token `t` over message `msg`:
`hmac.new(hmac.new(b"WebAppData", t, sha256).digest(), msg, sha256).hexdigest()`. -/
def sigHex (t msg : String) : String :=
  hexdigest (hmacSha256 (hmacSha256 (strBytes "WebAppData") (strBytes t)) (strBytes msg))

/-! ### JSON values and `json.loads` -/

/-- JSON values as produced by `json.loads`.  Integer numerals are `num`;
float numerals (a fraction or exponent part present) are `flt m e`, keeping
the literal's exact decimal value `m * 10 ^ e` — the IEEE-754 rounding
Python applies is not modelled, and no claim depends on a float's value. -/
inductive Json where
  | null
  | bool (b : Bool)
  | num (n : Int)
  | flt (m : Int) (e : Int)
  | str (s : String)
  | arr (xs : List Json)
  | obj (fs : List (String × Json))

/-- Python truthiness of a JSON value (`bool(x)`): `None`, `False`, `0`, `""`,
`[]` and `{}` are falsy. -/
def pyTruthy : Json → Bool
  | .null => false
  | .bool b => b
  | .num n => n != 0
  | .flt m _ => m != 0
  | .str s => s ≠ ""
  | .arr xs => !xs.isEmpty
  | .obj fs => !fs.isEmpty

/-- Dictionary lookup, later duplicate keys winning as in a Python `dict`
built by `json.loads`. -/
def jget (fs : List (String × Json)) (k : String) : Option Json :=
  match fs.reverse.find? (fun f => f.1 == k) with
  | some f => some f.2
  | none => none

/-- Python `"id" in user` for the JSON values the handler can receive:
key membership for a dict, element equality for a list, substring test for a
string; for numbers and booleans Python raises `TypeError` (`none`). -/
def pyContainsId : Json → Option Bool
  | .obj fs => some (fs.any (fun f => f.1 == "id"))
  | .arr xs => some (xs.any (fun j => match j with | .str s => s == "id" | _ => false))
  | .str s => some ((s.splitOn "id").length > 1)
  | _ => none

/-- Python `str(x)` for the JSON values that can sit in the `id` field
(for lists and dicts Python renders a `repr`, which no claim depends on;
a fixed placeholder stands in for it). -/
def pyStr : Json → String
  | .null => "None"
  | .bool true => "True"
  | .bool false => "False"
  | .num n => toString n
  | .str s => s
  | .flt _ _ => "<float>"
  | .arr _ => "<list>"
  | .obj _ => "<dict>"

/-- JSON whitespace. -/
def isWs (c : Char) : Bool :=
  c = ' ' || c = '\t' || c = '\n' || c = '\r'

/-- Drop leading JSON whitespace. -/
def skipWs : List Char → List Char
  | [] => []
  | c :: cs => if isWs c then skipWs cs else c :: cs

/-- Value of a hexadecimal digit, if any. -/
def hexVal (c : Char) : Option Nat :=
  if c.isDigit then some (c.toNat - 48)
  else if 'a' ≤ c ∧ c ≤ 'f' then some (c.toNat - 87)
  else if 'A' ≤ c ∧ c ≤ 'F' then some (c.toNat - 55)
  else none

/-- Value of four hexadecimal digits, if all are hex. -/
def hexQuad (h1 h2 h3 h4 : Char) : Option Nat :=
  match hexVal h1, hexVal h2, hexVal h3, hexVal h4 with
  | some a, some b, some c, some d => some (((a * 16 + b) * 16 + c) * 16 + d)
  | _, _, _, _ => none

/-- Read the body of a JSON string literal after the opening quote, as
Python's strict decoder does: the short escapes, `\uXXXX` escapes with
surrogate-pair combining, rejection of invalid escapes and of unescaped
control characters.  A lone surrogate — which Python keeps in its `str` but
a Lean `Char` cannot represent — collapses to `Char.ofNat`'s default.
Fuel-recursive (each step consumes at least one character) so that it
reduces in the kernel; returns the text and the input after the closing
quote. -/
def readStrAux : Nat → List Char → Option (List Char × List Char)
  | 0, _ => none
  | fuel + 1, cs =>
    match cs with
    | [] => none
    | '"' :: rest => some ([], rest)
    | '\\' :: 'u' :: h1 :: h2 :: h3 :: h4 :: rest =>
      (match hexQuad h1 h2 h3 h4 with
       | none => none
       | some n =>
         if 0xd800 ≤ n ∧ n ≤ 0xdbff then
           match rest with
           | '\\' :: 'u' :: g1 :: g2 :: g3 :: g4 :: rest2 =>
             (match hexQuad g1 g2 g3 g4 with
              | some m2 =>
                if 0xdc00 ≤ m2 ∧ m2 ≤ 0xdfff then
                  (readStrAux fuel rest2).map (fun r =>
                    (Char.ofNat (0x10000 + (n - 0xd800) * 0x400 + (m2 - 0xdc00)) :: r.1, r.2))
                else (readStrAux fuel rest).map (fun r => (Char.ofNat n :: r.1, r.2))
              | none => (readStrAux fuel rest).map (fun r => (Char.ofNat n :: r.1, r.2)))
           | _ => (readStrAux fuel rest).map (fun r => (Char.ofNat n :: r.1, r.2))
         else (readStrAux fuel rest).map (fun r => (Char.ofNat n :: r.1, r.2)))
    | '\\' :: e :: rest =>
      (match
        (match e with
         | '"' => some '"'
         | '\\' => some '\\'
         | '/' => some '/'
         | 'n' => some '\n'
         | 't' => some '\t'
         | 'r' => some '\r'
         | 'b' => some (Char.ofNat 8)
         | 'f' => some (Char.ofNat 12)
         | _ => none) with
       | some d => (readStrAux fuel rest).map (fun r => (d :: r.1, r.2))
       | none => none)
    | c :: rest =>
      if c.toNat < 0x20 then none
      else (readStrAux fuel rest).map (fun r => (c :: r.1, r.2))

/-- Read a JSON string-literal body (wrapper supplying the fuel). -/
def readStr (cs : List Char) : Option (List Char × List Char) :=
  readStrAux (cs.length + 1) cs

/-- Digits of a decimal numeral. -/
def readDigits : List Char → List Char × List Char
  | [] => ([], [])
  | c :: cs =>
    if c.isDigit then
      let r := readDigits cs
      (c :: r.1, r.2)
    else ([], c :: cs)

/-- Numeric value of a digit list. -/
def digitsVal (ds : List Char) : Nat :=
  ds.foldl (fun a c => a * 10 + (c.toNat - 48)) 0

/-- Attach a sign to a digit value. -/
def applySign (neg : Bool) (n : Nat) : Int :=
  if neg then -(n : Int) else (n : Int)

/-- Read an exponent part `e`/`E`, optional sign, one or more digits; `none`
when that shape is not present (the caller then stops before the `e`, the way
Python's greedy number regex does). -/
def readExpPart : List Char → Option (Int × List Char)
  | e :: rest =>
    if e = 'e' ∨ e = 'E' then
      let p : Bool × List Char :=
        match rest with
        | '+' :: r => (false, r)
        | '-' :: r => (true, r)
        | r => (false, r)
      match readDigits p.2 with
      | ([], _) => none
      | (ds, r2) => some (applySign p.1 (digitsVal ds), r2)
    else none
  | [] => none

/-- Read the optional fraction and exponent after the integer digits `ids`,
mirroring Python's `json` number regex
`-?(?:0|[1-9]\d*)(?:\.\d+)?(?:[eE][-+]?\d+)?` — a bare `.` or `e` with no
digits is left unconsumed.  A numeral with neither part is an `int`;
otherwise it is a float with exact decimal value `m * 10 ^ e`. -/
def readNumTail (neg : Bool) (ids : List Char) (rest : List Char) :
    Option (Json × List Char) :=
  let fr : List Char × List Char :=
    match rest with
    | '.' :: r2 =>
      (match readDigits r2 with
       | ([], _) => ([], rest)
       | (ds, r3) => (ds, r3))
    | _ => ([], rest)
  let ex : Option Int × List Char :=
    match readExpPart fr.2 with
    | none => (none, fr.2)
    | some (v, r4) => (some v, r4)
  match fr.1, ex.1 with
  | [], none => some (Json.num (applySign neg (digitsVal ids)), rest)
  | fds, exv =>
    some (Json.flt (applySign neg (digitsVal (ids ++ fds)))
      (exv.getD 0 - (fds.length : Int)), ex.2)

/-- Read a JSON numeral: optional minus, then `0` or a nonzero-led digit run
(leading zeros are rejected, as in Python), then fraction/exponent. -/
def readNum (cs : List Char) : Option (Json × List Char) :=
  let p : Bool × List Char :=
    match cs with
    | '-' :: rest => (true, rest)
    | _ => (false, cs)
  match p.2 with
  | c :: rest =>
    if c = '0' then readNumTail p.1 ['0'] rest
    else if c.isDigit then
      let r := readDigits (c :: rest)
      readNumTail p.1 r.1 r.2
    else none
  | [] => none

/-- Parse the members of a JSON object after the opening brace, given a
reader `pv` for element values; `fuel` bounds the number of members. -/
def readMembers (pv : List Char → Option (Json × List Char)) :
    Nat → List Char → Option (List (String × Json) × List Char)
  | 0, _ => none
  | fuel + 1, cs =>
    match skipWs cs with
    | '"' :: cs1 =>
      match readStr cs1 with
      | none => none
      | some (k, cs2) =>
        match skipWs cs2 with
        | ':' :: cs3 =>
          match pv cs3 with
          | none => none
          | some (v, cs4) =>
            match skipWs cs4 with
            | ',' :: cs5 =>
              match readMembers pv fuel cs5 with
              | some (fs, rest) => some ((String.mk k, v) :: fs, rest)
              | none => none
            | '\x7d' :: cs5 => some ([(String.mk k, v)], cs5)
            | _ => none
        | _ => none
    | _ => none

/-- Parse the elements of a JSON array after the opening bracket, given a
reader `pv` for element values; `fuel` bounds the number of elements. -/
def readElems (pv : List Char → Option (Json × List Char)) :
    Nat → List Char → Option (List Json × List Char)
  | 0, _ => none
  | fuel + 1, cs =>
    match pv cs with
    | none => none
    | some (v, cs1) =>
      match skipWs cs1 with
      | ',' :: cs2 =>
        match readElems pv fuel cs2 with
        | some (vs, rest) => some (v :: vs, rest)
        | none => none
      | ']' :: cs2 => some ([v], cs2)
      | _ => none

/-- Parse one JSON value; `fuel` bounds the nesting depth. -/
def readVal : Nat → List Char → Option (Json × List Char)
  | 0, _ => none
  | fuel + 1, cs =>
    match skipWs cs with
    | '\x7b' :: cs1 =>
      (match skipWs cs1 with
       | '\x7d' :: cs2 => some (Json.obj [], cs2)
       | _ =>
         match readMembers (readVal fuel) cs1.length cs1 with
         | some (fs, rest) => some (Json.obj fs, rest)
         | none => none)
    | '[' :: cs1 =>
      (match skipWs cs1 with
       | ']' :: cs2 => some (Json.arr [], cs2)
       | _ =>
         match readElems (readVal fuel) cs1.length cs1 with
         | some (vs, rest) => some (Json.arr vs, rest)
         | none => none)
    | '"' :: cs1 =>
      (match readStr cs1 with
       | some (s, rest) => some (Json.str (String.mk s), rest)
       | none => none)
    | 't' :: 'r' :: 'u' :: 'e' :: rest => some (Json.bool true, rest)
    | 'f' :: 'a' :: 'l' :: 's' :: 'e' :: rest => some (Json.bool false, rest)
    | 'n' :: 'u' :: 'l' :: 'l' :: rest => some (Json.null, rest)
    | c :: cs1 =>
      if c = '-' ∨ c.isDigit then readNum (c :: cs1) else none
    | [] => none

/-- Model of `json.loads`: parse a complete JSON document over the RFC 8259
grammar — objects, arrays, strings (escapes and `\uXXXX` included), integer
and float numerals, `true`/`false`/`null` — requiring only trailing
whitespace after the value.  Python's nonstandard `NaN`/`Infinity` literals
are outside the modelled grammar.  `none` models a raised
`JSONDecodeError`. -/
def jsonLoads (s : String) : Option Json :=
  match readVal (s.data.length + 1) s.data with
  | some (v, rest) => if skipWs rest = [] then some v else none
  | none => none

/-! ### The canonicalizer (`check_telegram_auth_raw`, steps 1-4) -/

/-- Python `str.split(sep)`: split on every occurrence, keeping empty
fragments (so `"".split("&") = [""]` and `"a&&b".split("&") = ["a","","b"]`). -/
def splitChar (sep : Char) (l : List Char) : List (List Char) :=
  l.foldr
    (fun c acc =>
      match acc with
      | h :: t => if c = sep then [] :: h :: t else (c :: h) :: t
      | [] => [[c]])
    [[]]

/-- Python `s.split(sep, 1)`: the part before the first separator, and the
part after it when the separator occurs. -/
def splitFirst (sep : Char) : List Char → List Char × Option (List Char)
  | [] => ([], none)
  | c :: cs =>
    if c = sep then ([], some cs)
    else
      let r := splitFirst sep cs
      (c :: r.1, r.2)

/-- The sort key of a pair: `s.split("=", 1)[0]`. -/
def pkey (s : List Char) : List Char :=
  (splitFirst '=' s).1

/-- Step 1 of `check_telegram_auth_raw`: walk the raw `&`-separated pairs,
skipping empty ones, remembering the value of the (last) `hash=` pair and
collecting the remaining pairs in order. -/
def scanPairs : List (List Char) → Option (List Char) × List (List Char)
  | [] => (none, [])
  | p :: ps =>
    let r := scanPairs ps
    if p.isEmpty then r
    else if p.take 5 == "hash=".data then
      (some (r.1.getD (p.drop 5)), r.2)
    else (r.1, p :: r.2)

/-- The submitted signature: the value of the last `hash=` pair, if any. -/
def recv_hash (init_data : String) : Option (List Char) :=
  (scanPairs (splitChar '&' init_data.data)).1

/-- The non-`hash` pairs of the blob, raw and in input order (`kv_raw`). -/
def kv_raw (init_data : String) : List (List Char) :=
  (scanPairs (splitChar '&' init_data.data)).2

/-- Python's `if not recv_hash`: missing, or present with an empty value. -/
def recvFalsy : Option (List Char) → Bool
  | none => true
  | some l => l.isEmpty

/-- Code-point lexicographic comparison of character lists; this is how
Python compares the `str` sort keys. -/
def charsLe : List Char → List Char → Bool
  | [], _ => true
  | _ :: _, [] => false
  | a :: as, b :: bs =>
    if a.toNat < b.toNat then true
    else if b.toNat < a.toNat then false
    else charsLe as bs

/-- The comparison used by `kv_raw.sort(key=lambda s: s.split("=", 1)[0])`. -/
def pairLe (s t : List Char) : Bool :=
  charsLe (pkey s) (pkey t)

/-- Step 2: `kv_raw` sorted stably by key (Python's `list.sort` is stable;
so is insertion sort). -/
def sortedPairs (init_data : String) : List (List Char) :=
  List.insertionSort (fun s t => pairLe s t = true) (kv_raw init_data)

/-- Step 3: the canonical string `"\n".join(kv_raw)` (after the in-place
sort of `kv_raw`). -/
def data_check_string (init_data : String) : String :=
  String.mk (List.intercalate ['\n'] (sortedPairs init_data))

/-- Step 4: `next((s.split("=",1)[1] for s in kv_raw if s.split("=",1)[0] ==
"user"), None)`, evaluated on the sorted list.  The outer `none` models the
`IndexError` raised when the first pair keyed `user` has no `=` (the bare
pair `user`); `some none` is the absence of a `user` pair. -/
def user_raw (init_data : String) : Option (Option (List Char)) :=
  match (sortedPairs init_data).find? (fun s => pkey s == "user".data) with
  | none => some none
  | some s =>
    match (splitFirst '=' s).2 with
    | some v => some (some v)
    | none => none

/-! ### The signature verifier (`check_telegram_auth_raw`, step 5) -/

/-- Step 5: try each configured token in order; on the first token whose
computed signature equals the submitted one (`hmac.compare_digest` is
semantically string equality), run `json.loads(...) if user_raw else None` —
a missing or empty (falsy) `user` value skips decoding and yields user
`None`; a decoding failure raises, which the enclosing `except` turns into
the `exception` result.  An exhausted list is `hash_mismatch`. -/
def tryTokens (tokens : List String) (dcs recvh : String) (uraw : Option (List Char)) :
    Bool × Option Json × String :=
  match tokens with
  | [] => (false, none, "hash_mismatch")
  | t :: ts =>
    if sigHex t dcs == recvh then
      match uraw with
      | none => (true, none, "ok")
      | some v =>
        if v.isEmpty then (true, none, "ok")
        else
          match jsonLoads (String.mk v) with
          | some j => (true, some j, "ok")
          | none => (false, none, "exception")
    else tryTokens ts dcs recvh uraw

/-- `check_telegram_auth_raw(init_data, tokens)` from `src/server.py`:
split the raw pairs, require a non-empty submitted hash, canonicalize
without any percent-decoding, extract the raw `user` value, and try every
configured token. -/
def check_telegram_auth_raw (init_data : String) (tokens : List String) :
    Bool × Option Json × String :=
  let recv := recv_hash init_data
  if recvFalsy recv then (false, none, "no_hash")
  else
    match user_raw init_data with
    | none => (false, none, "exception")
    | some uraw =>
      tryTokens tokens (data_check_string init_data) (String.mk (recv.getD [])) uraw

/-! ### The spec's decode-once canonicalizer -/

/-- Modelled from the spec: percent-escape decoding in the style of
`urllib.parse.unquote`, which `src/server.py` deliberately never calls —
each `%HH` hex escape becomes the code point `HH`, anything else passes
through. -/
def percentDecodeChars : List Char → List Char
  | '%' :: h :: l :: rest =>
    (match hexVal h, hexVal l with
     | some a, some b => Char.ofNat (16 * a + b) :: percentDecodeChars rest
     | _, _ => '%' :: percentDecodeChars (h :: l :: rest))
  | c :: rest => c :: percentDecodeChars rest
  | [] => []

/-- Modelled from the spec: percent-escape decoding on strings. -/
def percentDecode (s : String) : String :=
  String.mk (percentDecodeChars s.data)

/-- Modelled from the spec: the canonicalizer the spec describes — decode
percent-escapes once, immediately after splitting the blob into pairs, then
strip `hash`, sort by key and join with newlines. -/
def canonical_decoded (init_data : String) : String :=
  let ps := (splitChar '&' init_data.data).map percentDecodeChars
  let kv := (scanPairs ps).2
  String.mk (List.intercalate ['\n'] (List.insertionSort (fun s t => pairLe s t = true) kv))

/-! ### The score store and the `/score` handler -/

/-- A row of the `players` table; rows are listed in storage order.
`updated_at` keeps the submission timestamp itself (the handler stores its
ISO rendering, an injective image of it). -/
structure Player where
  id : String
  username : Option Json
  display_name : Json
  best_score : Int
  updated_at : Int

/-- `SELECT ... FROM players WHERE id = ?` — `id` is the primary key. -/
def findRow (db : List Player) (uid : String) : Option Player :=
  db.find? (fun p => p.id == uid)

/-- The stored best for a player: the row's `best_score`, or 0 without a
row (exactly the `prev_best` the handler reads at lines 186-190). -/
def bestStored (db : List Player) (uid : String) : Int :=
  match findRow db uid with
  | some row => row.best_score
  | none => 0

/-- The first upsert statement: on conflict update `username`,
`display_name`, `best_score` and `updated_at`; otherwise insert. -/
def sqlUpsertFull (db : List Player) (uid : String) (u : Option Json) (d : Json)
    (s : Int) (t : Int) : List Player :=
  if db.any (fun p => p.id == uid) then
    db.map (fun p =>
      if p.id == uid then
        { p with username := u, display_name := d, best_score := s, updated_at := t }
      else p)
  else db ++ [⟨uid, u, d, s, t⟩]

/-- The second upsert statement: on conflict update only `username` and
`display_name`; otherwise insert (with the caller-supplied score and time). -/
def sqlUpsertMeta (db : List Player) (uid : String) (u : Option Json) (d : Json)
    (s : Int) (t : Int) : List Player :=
  if db.any (fun p => p.id == uid) then
    db.map (fun p =>
      if p.id == uid then { p with username := u, display_name := d } else p)
  else db ++ [⟨uid, u, d, s, t⟩]

/-- The store section of `post_score` (`src/server.py` lines 186-214): read
the current best (0 without a row), then run the strict-improvement upsert or
the metadata-only upsert; returns the new table and the best reported back. -/
def score_step (db : List Player) (uid : String) (u : Option Json) (d : Json)
    (score : Int) (now : Int) : List Player × Int :=
  let prev_best := bestStored db uid
  if score > prev_best then (sqlUpsertFull db uid u d score now, score)
  else (sqlUpsertMeta db uid u d prev_best now, prev_best)

/-- A sequence of accepted submissions `(score, time)` for one player, run
through the store section in order. -/
def submitSeq (uid : String) (u : Option Json) (d : Json)
    (subs : List (Int × Int)) (db : List Player) : List Player :=
  subs.foldl (fun acc s => (score_step acc uid u d s.1 s.2).1) db

/-- The `me` object of a 200 response. -/
structure Me where
  id : String
  display_name : Json
  username : Option Json
  best_score : Int

/-- The JSON body and status code of a `/score` response.  `rate_limited`
records the optional `rate_limited` field of the body (the handler never
emits one, so the model never sets it). -/
structure Response where
  status : Nat
  ok : Bool
  error : Option String
  reason : Option String
  me : Option Me
  rate_limited : Option Bool

/-- Mutable server state: the `players` table and the module-level
`LAST_SCORES` dictionary. -/
structure ServerState where
  db : List Player
  last_scores : List (String × Int)

/-- `LAST_SCORES.get(user_id)`. -/
def lsGet (m : List (String × Int)) (k : String) : Option Int :=
  (m.find? (fun e => e.1 == k)).map (·.2)

/-- `LAST_SCORES[user_id] = now`. -/
def lsSet (m : List (String × Int)) (k : String) (v : Int) : List (String × Int) :=
  if m.any (fun e => e.1 == k) then
    m.map (fun e => if e.1 == k then (k, v) else e)
  else m ++ [(k, v)]

/-- Python's `a or b or ...` over optional JSON values: the first truthy
operand. -/
def firstTruthy : List (Option Json) → Option Json
  | [] => none
  | none :: rest => firstTruthy rest
  | some j :: rest => if pyTruthy j then some j else firstTruthy rest

/-- `user_id[-4:]`. -/
def lastFour (s : String) : String :=
  String.mk (s.data.drop (s.data.length - 4))

/-- The `POST /score` handler (`post_score` in `src/server.py`), for a
request that passed body validation.  The configured token list (read from
the environment at lines 144-151) is a parameter, as is the current time.
Returns the response and the new server state. -/
def post_score (tokens : List String) (st : ServerState) (initData : String)
    (score : Int) (now : Int) : Response × ServerState :=
  let r := check_telegram_auth_raw initData tokens
  let ok := r.1
  let user := r.2.1
  let reason_resp := r.2.2
  let userFalsy : Bool := match user with
    | none => true
    | some j => !pyTruthy j
  if !ok || userFalsy then
    (⟨401, false, some "invalid_init_data", some reason_resp, none, none⟩, st)
  else
    match user with
    | none => (⟨500, false, some "server_error", none, none, none⟩, st)
    | some uj =>
      match pyContainsId uj with
      | none => (⟨500, false, some "server_error", none, none, none⟩, st)
      | some false =>
        (⟨401, false, some "invalid_init_data", some reason_resp, none, none⟩, st)
      | some true =>
        match uj with
        | .obj fs =>
          let user_id := pyStr ((jget fs "id").getD Json.null)
          let username := jget fs "username"
          let first_name := jget fs "first_name"
          let last_name := jget fs "last_name"
          let display_name := (firstTruthy [username, first_name, last_name]).getD
            (Json.str ("Player " ++ lastFour user_id))
          let proceed : Response × ServerState :=
            let ls1 := lsSet st.last_scores user_id now
            let step := score_step st.db user_id username display_name score now
            (⟨200, true, none, none, some ⟨user_id, display_name, username, step.2⟩, none⟩,
             ⟨step.1, ls1⟩)
          (match lsGet st.last_scores user_id with
           | some last =>
             if now - last < 1000000 then
               (⟨429, false, some "too_many_requests", some "rate_limited", none, none⟩, st)
             else proceed
           | none => proceed)
        | _ => (⟨500, false, some "server_error", none, none, none⟩, st)

/-! ### The leaderboard reader -/

/-- `ORDER BY best_score DESC`, ties kept in storage order. -/
def sortRows (db : List Player) : List Player :=
  List.insertionSort (fun p q : Player => q.best_score ≤ p.best_score) db

/-- `LIMIT ? OFFSET ?` with SQLite semantics: a negative `OFFSET` counts as
zero and a negative `LIMIT` means unlimited. -/
def sqlSelectRows (db : List Player) (limit offset : Int) : List Player :=
  let rows := (sortRows db).drop offset.toNat
  if limit < 0 then rows else rows.take limit.toNat

/-- One element of the leaderboard's `items` array. -/
structure LBItem where
  display_name : Json
  username : Option Json
  best_score : Int

/-- The `GET /leaderboard` handler (`get_leaderboard` in `src/server.py`):
clamp `limit` above 200, then run the windowed descending query.  FastAPI
supplies the defaults `limit=100`, `offset=0`. -/
def get_leaderboard (db : List Player) (limit : Int := 100) (offset : Int := 0) :
    List LBItem :=
  let lim := if limit > 200 then (200 : Int) else limit
  (sqlSelectRows db lim offset).map (fun p => ⟨p.display_name, p.username, p.best_score⟩)

/-! ### Auxiliary definitions for the verification -/

/-- The projection a leaderboard row undergoes into the `items` array. -/
def lbProj (p : Player) : LBItem :=
  ⟨p.display_name, p.username, p.best_score⟩

/-- A credential blob correctly signed with token `12345:ABC` whose `user`
value is literal (unescaped) JSON, so the handler can decode it. -/
def blob1 : String :=
  "auth_date=1&user=\x7b\"id\":42\x7d&hash=dde4ef37f082dea7a9edaa0d0375700693a5edbda97fa916cf9178836d895cb9"

/-- Server state for the rate-limit scenario: player 42 holds best 100 and
last submitted at time 0. -/
def stC1 : ServerState :=
  ⟨[⟨"42", none, Json.str "Bob", 100, 0⟩], [("42", 0)]⟩

/-- `blob1` with its pairs re-ordered (`user` first), same signature pair. -/
def blob1p : String :=
  "user=\x7b\"id\":42\x7d&auth_date=1&hash=dde4ef37f082dea7a9edaa0d0375700693a5edbda97fa916cf9178836d895cb9"

/-- Sample table from the spec's pagination example: bests 50, 10, 90, 10 in
storage order. -/
def db4 : List Player :=
  [⟨"a", none, Json.str "A", 50, 0⟩, ⟨"b", none, Json.str "B", 10, 0⟩,
   ⟨"c", none, Json.str "C", 90, 0⟩, ⟨"d", none, Json.str "D", 10, 0⟩]

/-- A table of 201 players (ids `"0"`..`"200"`, all with best 0). -/
def bigDb : List Player :=
  (List.range 201).map (fun i => ⟨toString i, none, Json.null, 0, 0⟩)

/-- The value of the last `hash=` pair among a pair list (helper for
relating `scanPairs` to a filter). -/
def lastVal : List (List Char) → Option (List Char)
  | [] => none
  | p :: ps => some ((lastVal ps).getD (p.drop 5))

/-! ### Store lemmas -/

theorem findRow_isSome_eq_any (db : List Player) (uid : String) :
    (findRow db uid).isSome = db.any (fun p => p.id == uid) := by
  induction db with
  | nil => rfl
  | cons p ps ih =>
    simp only [findRow, List.find?, List.any_cons] at *
    cases h : p.id == uid <;> simp [h, ih]

theorem findRow_map_update (db : List Player) (uid : String) (g : Player → Player)
    (hg : ∀ p, (g p).id = p.id) :
    findRow (db.map (fun p => if p.id == uid then g p else p)) uid =
      (findRow db uid).map g := by
  induction db with
  | nil => rfl
  | cons p ps ih =>
    unfold findRow at *
    by_cases h : (p.id == uid) = true
    · rw [List.map_cons, if_pos h]
      rw [show List.find? (fun q => q.id == uid)
            (g p :: List.map (fun q => if q.id == uid then g q else q) ps) = some (g p) from
          List.find?_cons_of_pos _ (by rw [hg p]; exact h)]
      rw [show List.find? (fun q => q.id == uid) (p :: ps) = some p from
          List.find?_cons_of_pos _ h, Option.map_some']
    · rw [List.map_cons, if_neg h]
      rw [show List.find? (fun q => q.id == uid)
            (p :: List.map (fun q => if q.id == uid then g q else q) ps) =
            List.find? (fun q => q.id == uid)
              (List.map (fun q => if q.id == uid then g q else q) ps) from
          List.find?_cons_of_neg _ h]
      rw [show List.find? (fun q => q.id == uid) (p :: ps) =
            List.find? (fun q => q.id == uid) ps from
          List.find?_cons_of_neg _ h]
      exact ih

theorem findRow_append_single (db : List Player) (uid : String) (x : Player)
    (h : findRow db uid = none) :
    findRow (db ++ [x]) uid = if x.id == uid then some x else none := by
  induction db with
  | nil =>
    cases hx : x.id == uid <;> simp [findRow, List.find?, hx]
  | cons p ps ih =>
    cases hp : p.id == uid
    · have h' : findRow ps uid = none := by
        simpa [findRow, List.find?, hp] using h
      simpa [findRow, List.find?, hp] using ih h'
    · exfalso
      simp [findRow, List.find?, hp] at h

theorem findRow_of_any_false (db : List Player) (uid : String)
    (h : db.any (fun p => p.id == uid) = false) : findRow db uid = none := by
  have := findRow_isSome_eq_any db uid
  rw [h] at this
  cases hfr : findRow db uid
  · rfl
  · rw [hfr] at this; simp at this

theorem findRow_of_any_true (db : List Player) (uid : String)
    (h : db.any (fun p => p.id == uid) = true) : ∃ p, findRow db uid = some p := by
  have := findRow_isSome_eq_any db uid
  rw [h] at this
  cases hfr : findRow db uid
  · rw [hfr] at this; simp at this
  · exact ⟨_, rfl⟩

/-- The strict-improvement upsert always leaves `s` as the stored best. -/
theorem bestStored_sqlUpsertFull (db : List Player) (uid : String) (u : Option Json)
    (d : Json) (s : Int) (t : Int) :
    bestStored (sqlUpsertFull db uid u d s t) uid = s := by
  unfold sqlUpsertFull
  cases hany : db.any (fun p => p.id == uid)
  · rw [if_neg (by simp [hany])]
    unfold bestStored
    rw [findRow_append_single db uid _ (findRow_of_any_false db uid hany)]
    simp
  · rw [if_pos (by simp [hany])]
    obtain ⟨p, hp⟩ := findRow_of_any_true db uid hany
    unfold bestStored
    rw [findRow_map_update db uid (fun q => { q with username := u, display_name := d, best_score := s, updated_at := t }) (fun q => rfl), hp, Option.map_some']

/-- The metadata-only upsert keeps the stored best when the row exists. -/
theorem bestStored_sqlUpsertMeta_some (db : List Player) (uid : String) (u : Option Json)
    (d : Json) (s : Int) (t : Int) (row : Player) (hrow : findRow db uid = some row) :
    bestStored (sqlUpsertMeta db uid u d s t) uid = row.best_score := by
  unfold sqlUpsertMeta
  have hany : db.any (fun p => p.id == uid) = true := by
    have := findRow_isSome_eq_any db uid
    rw [hrow] at this
    exact this.symm
  rw [if_pos (by simp [hany])]
  unfold bestStored
  rw [findRow_map_update db uid (fun q => { q with username := u, display_name := d }) (fun q => rfl), hrow, Option.map_some']

/-- The metadata-only upsert installs `s` as the best when no row exists. -/
theorem bestStored_sqlUpsertMeta_none (db : List Player) (uid : String) (u : Option Json)
    (d : Json) (s : Int) (t : Int) (hrow : findRow db uid = none) :
    bestStored (sqlUpsertMeta db uid u d s t) uid = s := by
  unfold sqlUpsertMeta
  have hany : db.any (fun p => p.id == uid) = false := by
    have := findRow_isSome_eq_any db uid
    rw [hrow] at this
    exact this.symm
  rw [if_neg (by simp [hany])]
  unfold bestStored
  rw [findRow_append_single db uid _ hrow]
  simp

theorem bestStored_some (db : List Player) (uid : String) (row : Player)
    (h : findRow db uid = some row) : bestStored db uid = row.best_score := by
  unfold bestStored
  rw [h]

theorem bestStored_none (db : List Player) (uid : String)
    (h : findRow db uid = none) : bestStored db uid = 0 := by
  unfold bestStored
  rw [h]

/-- After the store section runs, the stored best for the submitting player
is the maximum of the previous stored best and the claimed score. -/
theorem bestStored_score_step (db : List Player) (uid : String) (u : Option Json)
    (d : Json) (score : Int) (now : Int) :
    bestStored (score_step db uid u d score now).1 uid = max (bestStored db uid) score := by
  unfold score_step
  by_cases hgt : score > bestStored db uid
  · rw [if_pos hgt]
    rw [show (sqlUpsertFull db uid u d score now, score).1 = sqlUpsertFull db uid u d score now
      from rfl]
    rw [bestStored_sqlUpsertFull]
    omega
  · rw [if_neg hgt]
    rw [show (sqlUpsertMeta db uid u d (bestStored db uid) now, bestStored db uid).1 =
      sqlUpsertMeta db uid u d (bestStored db uid) now from rfl]
    cases hrow : findRow db uid with
    | some row =>
      rw [bestStored_sqlUpsertMeta_some db uid u d _ now row hrow]
      rw [bestStored_some db uid row hrow] at hgt ⊢
      omega
    | none =>
      rw [bestStored_sqlUpsertMeta_none db uid u d _ now hrow]
      rw [bestStored_none db uid hrow] at hgt ⊢
      omega

theorem submitSeq_bestStored (uid : String) (u : Option Json) (d : Json) :
    ∀ (subs : List (Int × Int)) (db : List Player),
      bestStored (submitSeq uid u d subs db) uid =
        (subs.map (·.1)).foldl max (bestStored db uid) := by
  intro subs
  induction subs with
  | nil => intro db; rfl
  | cons s rest ih =>
    intro db
    simp only [submitSeq, List.foldl_cons, List.map_cons] at *
    rw [ih, bestStored_score_step]

/-! ### Comparison and sorting lemmas -/

theorem charsLe_refl (a : List Char) : charsLe a a = true := by
  induction a with
  | nil => rfl
  | cons c cs ih => simp [charsLe, ih]

theorem charsLe_total (a b : List Char) : charsLe a b = true ∨ charsLe b a = true := by
  induction a generalizing b with
  | nil => left; rfl
  | cons c cs ih =>
    cases b with
    | nil => right; rfl
    | cons d ds =>
      by_cases h1 : c.toNat < d.toNat
      · left; simp [charsLe, h1]
      · by_cases h2 : d.toNat < c.toNat
        · right; simp [charsLe, h2]
        · rcases ih ds with h | h
          · left; simp [charsLe, h1, h2, h]
          · right; simp [charsLe, h1, h2, h]

theorem charsLe_trans (a b c : List Char) (hab : charsLe a b = true)
    (hbc : charsLe b c = true) : charsLe a c = true := by
  induction a generalizing b c with
  | nil => rfl
  | cons x xs ih =>
    cases b with
    | nil => simp [charsLe] at hab
    | cons y ys =>
      cases c with
      | nil => simp [charsLe] at hbc
      | cons z zs =>
        simp only [charsLe] at hab hbc ⊢
        by_cases h1 : x.toNat < y.toNat <;> by_cases h2 : y.toNat < z.toNat <;>
          by_cases h3 : x.toNat < z.toNat <;>
          simp [h1, h2, h3] at hab hbc ⊢ <;> try omega
        · exact ⟨by omega, ih ys zs (by simpa using hab.2) (by simpa using hbc.2)⟩

theorem char_toNat_inj (a b : Char) (h : a.toNat = b.toNat) : a = b := by
  cases a; cases b
  simp only [Char.toNat] at h
  congr 1
  exact UInt32.ext h

theorem charsLe_antisymm (a b : List Char) (hab : charsLe a b = true)
    (hba : charsLe b a = true) : a = b := by
  induction a generalizing b with
  | nil =>
    cases b with
    | nil => rfl
    | cons d ds => simp [charsLe] at hba
  | cons c cs ih =>
    cases b with
    | nil => simp [charsLe] at hab
    | cons d ds =>
      simp only [charsLe] at hab hba
      by_cases h1 : c.toNat < d.toNat <;> by_cases h2 : d.toNat < c.toNat <;>
        simp [h1, h2] at hab hba ⊢
      · omega
      · have : c = d := char_toNat_inj c d (by omega)
        exact ⟨this, ih ds hab hba⟩

theorem pairLe_total (a b : List Char) : pairLe a b = true ∨ pairLe b a = true :=
  charsLe_total (pkey a) (pkey b)

theorem pairLe_trans (a b c : List Char) (hab : pairLe a b = true)
    (hbc : pairLe b c = true) : pairLe a c = true :=
  charsLe_trans (pkey a) (pkey b) (pkey c) hab hbc

/-- `insertionSort` by `pairLe` produces a `pairLe`-sorted list. -/
theorem sorted_insertionSort_pairLe (l : List (List Char)) :
    List.Sorted (fun s t => pairLe s t = true) (List.insertionSort (fun s t => pairLe s t = true) l) := by
  haveI : IsTotal (List Char) (fun s t => pairLe s t = true) := ⟨pairLe_total⟩
  haveI : IsTrans (List Char) (fun s t => pairLe s t = true) := ⟨pairLe_trans⟩
  exact List.sorted_insertionSort _ l

/-- Two `pairLe`-sorted permutations of one another whose keys are pairwise
distinct are equal (the strict key order is antisymmetric). -/
theorem sorted_nodupkeys_eq (l1 l2 : List (List Char)) (hp : l1.Perm l2)
    (hs1 : List.Sorted (fun s t => pairLe s t = true) l1)
    (hs2 : List.Sorted (fun s t => pairLe s t = true) l2)
    (hnd : (l1.map pkey).Nodup) : l1 = l2 := by
  haveI : IsAntisymm (List Char) (fun s t => pairLe s t = true ∧ pkey s ≠ pkey t) :=
    ⟨fun a b ha hb => absurd (charsLe_antisymm (pkey a) (pkey b) ha.1 hb.1) ha.2⟩
  have hnd2 : (l2.map pkey).Nodup := ((hp.map pkey).nodup_iff).mp hnd
  have hne1 : l1.Pairwise (fun s t => pkey s ≠ pkey t) := List.pairwise_map.mp hnd
  have hne2 : l2.Pairwise (fun s t => pkey s ≠ pkey t) := List.pairwise_map.mp hnd2
  exact List.eq_of_perm_of_sorted hp (hs1.and hne1) (hs2.and hne2)

/-- A permutation of a list with at most one element is the list itself. -/
theorem perm_short_eq {α : Type} (l1 l2 : List α) (h : l1.Perm l2)
    (hl : l1.length ≤ 1) : l1 = l2 := by
  cases l1 with
  | nil => exact (h.nil_eq)
  | cons a t =>
    cases t with
    | nil =>
      have := (List.perm_singleton.mp h.symm)
      exact this.symm
    | cons b u => simp at hl

/-! ### `scanPairs` as filters -/

theorem scanPairs_snd (ps : List (List Char)) :
    (scanPairs ps).2 = ps.filter (fun p => !p.isEmpty && !(p.take 5 == "hash=".data)) := by
  induction ps with
  | nil => rfl
  | cons p rest ih =>
    unfold scanPairs
    by_cases he : p.isEmpty
    · simp [he, ih, List.filter_cons]
    · by_cases hh : (p.take 5 == "hash=".data) = true
      · simp [he, hh, ih, List.filter_cons]
      · simp [he, hh, ih, List.filter_cons]

theorem scanPairs_fst (ps : List (List Char)) :
    (scanPairs ps).1 = lastVal (ps.filter (fun p => p.take 5 == "hash=".data)) := by
  induction ps with
  | nil => rfl
  | cons p rest ih =>
    unfold scanPairs
    by_cases he : p.isEmpty
    · have hph : (p.take 5 == "hash=".data) = false := by
        have : p = [] := by
          cases p
          · rfl
          · simp [List.isEmpty] at he
        subst this
        rfl
      simp [he, hph, ih, List.filter_cons]
    · by_cases hh : (p.take 5 == "hash=".data) = true
      · simp [he, hh, ih, List.filter_cons, lastVal]
      · simp [he, hh, ih, List.filter_cons]

/-! ### Permutation invariance of the canonicalizer -/

/-- Permuting the raw pairs permutes `kv_raw`. -/
theorem kv_raw_perm (init init' : String)
    (hp : (splitChar '&' init.data).Perm (splitChar '&' init'.data)) :
    (kv_raw init).Perm (kv_raw init') := by
  unfold kv_raw
  rw [scanPairs_snd, scanPairs_snd]
  exact hp.filter _

/-- With pairwise-distinct keys, permuting the raw pairs leaves the sorted
pair list unchanged. -/
theorem sortedPairs_eq_of_perm (init init' : String)
    (hp : (splitChar '&' init.data).Perm (splitChar '&' init'.data))
    (hnd : ((kv_raw init).map pkey).Nodup) :
    sortedPairs init = sortedPairs init' := by
  have hkv := kv_raw_perm init init' hp
  have hperm : (sortedPairs init).Perm (sortedPairs init') := by
    unfold sortedPairs
    exact ((List.perm_insertionSort _ _).trans hkv).trans
      (List.perm_insertionSort _ _).symm
  have hnds : ((sortedPairs init).map pkey).Nodup := by
    have : (sortedPairs init).Perm (kv_raw init) := List.perm_insertionSort _ _
    exact ((this.map pkey).nodup_iff).mpr hnd
  exact sorted_nodupkeys_eq _ _ hperm (sorted_insertionSort_pairLe _)
    (sorted_insertionSort_pairLe _) hnds

/-- With at most one `hash=` pair, permuting the raw pairs leaves the
submitted hash unchanged. -/
theorem recv_hash_eq_of_perm (init init' : String)
    (hp : (splitChar '&' init.data).Perm (splitChar '&' init'.data))
    (hone : ((splitChar '&' init.data).filter
      (fun p => p.take 5 == "hash=".data)).length ≤ 1) :
    recv_hash init = recv_hash init' := by
  unfold recv_hash
  rw [scanPairs_fst, scanPairs_fst]
  congr 1
  exact perm_short_eq _ _ (hp.filter _) hone

/-! ### The token loop -/

/-- The one-step unfolding of the token loop (stated by hand: it is
definitional). -/
theorem tryTokens_cons (t : String) (ts : List String) (dcs recvh : String)
    (uraw : Option (List Char)) :
    tryTokens (t :: ts) dcs recvh uraw =
      if sigHex t dcs == recvh then
        match uraw with
        | none => (true, none, "ok")
        | some v =>
          if v.isEmpty then (true, none, "ok")
          else
            match jsonLoads (String.mk v) with
            | some j => (true, some j, "ok")
            | none => (false, none, "exception")
      else tryTokens ts dcs recvh uraw := rfl

/-- If no configured token reproduces the submitted hash, the loop tries all
of them and fails with `hash_mismatch`. -/
theorem tryTokens_of_no_match (tokens : List String) (dcs recvh : String)
    (uraw : Option (List Char))
    (h : ∀ t ∈ tokens, sigHex t dcs ≠ recvh) :
    tryTokens tokens dcs recvh uraw = (false, none, "hash_mismatch") := by
  induction tokens with
  | nil => rfl
  | cons t ts ih =>
    rw [tryTokens_cons]
    cases ht : sigHex t dcs == recvh with
    | true =>
      exact absurd (by simpa using ht) (h t (List.mem_cons_self t ts))
    | false =>
      rw [if_neg (by simp)]
      exact ih (fun t' ht' => h t' (List.mem_cons_of_mem t ht'))

/-! ### Digest length facts -/

/-- When no configured token computes the submitted signature (and the blob
does carry one, and user extraction does not raise), verification fails with
`hash_mismatch` after the whole list is exhausted. -/
theorem check_no_match (init : String) (tokens : List String)
    (hrf : recvFalsy (recv_hash init) = false)
    (hur : user_raw init ≠ none)
    (h : ∀ t ∈ tokens,
      sigHex t (data_check_string init) ≠ String.mk ((recv_hash init).getD [])) :
    check_telegram_auth_raw init tokens = (false, none, "hash_mismatch") := by
  unfold check_telegram_auth_raw
  rw [if_neg (by simp [hrf])]
  cases hur2 : user_raw init with
  | none => exact absurd hur2 hur
  | some uraw => exact tryTokens_of_no_match tokens _ _ uraw h

/-- With an empty configured-token list the verifier never succeeds. -/
theorem check_nil_fst_false (init : String) :
    (check_telegram_auth_raw init []).1 = false := by
  unfold check_telegram_auth_raw
  cases hrf : recvFalsy (recv_hash init) with
  | true => rw [if_pos (by simp [hrf])]
  | false =>
    rw [if_neg (by simp [hrf])]
    cases hur : user_raw init with
    | none => rfl
    | some uraw => rfl

/-- The metadata-only upsert maps an existing row to the same row with only
`username` and `display_name` replaced. -/
theorem findRow_sqlUpsertMeta_some (db : List Player) (uid : String) (u : Option Json)
    (d : Json) (s : Int) (t : Int) (row : Player) (hrow : findRow db uid = some row) :
    findRow (sqlUpsertMeta db uid u d s t) uid =
      some { row with username := u, display_name := d } := by
  unfold sqlUpsertMeta
  have hany : db.any (fun p => p.id == uid) = true := by
    have := findRow_isSome_eq_any db uid
    rw [hrow] at this
    exact this.symm
  rw [if_pos (by simp [hany])]
  rw [findRow_map_update db uid (fun q => { q with username := u, display_name := d }) (fun q => rfl), hrow, Option.map_some']

/-- `ORDER BY best_score DESC` output is sorted by descending best score. -/
theorem sortRows_sorted (db : List Player) :
    List.Sorted (fun p q : Player => q.best_score ≤ p.best_score) (sortRows db) := by
  haveI : IsTotal Player (fun p q : Player => q.best_score ≤ p.best_score) :=
    ⟨fun a b => le_total b.best_score a.best_score⟩
  haveI : IsTrans Player (fun p q : Player => q.best_score ≤ p.best_score) :=
    ⟨fun a b c h1 h2 => le_trans h2 h1⟩
  exact List.sorted_insertionSort _ db

/-! ### Claim theorems -/

/-- Claim C3, counterexample: a single accepted submission with the negative
score -1 by a player with no row leaves a stored best of 0, not
max(s1..sn) = -1 — the stored best is floored by the 0 default read for a
missing row. -/
theorem claim_C3_counterexample :
    bestStored (submitSeq "42" none (Json.str "B") [(-1, 0)] []) "42" = 0 ∧
    (0 : Int) ≠ -1 :=
  ⟨rfl, by decide⟩

/-- Claim C3 (amended): for a player starting with no row, after a sequence
of accepted submissions with scores s1..sn the stored best equals
max(0, s1, ..., sn) (which is max(s1..sn) whenever any score is
non-negative), and the stored best never decreases across any write. -/
theorem claim_C3 (uid : String) (u : Option Json) (d : Json)
    (subs : List (Int × Int)) (db : List Player)
    (hrow : findRow db uid = none) :
    bestStored (submitSeq uid u d subs db) uid = (subs.map (·.1)).foldl max 0 ∧
    ∀ (db' : List Player) (score now : Int),
      bestStored db' uid ≤ bestStored (score_step db' uid u d score now).1 uid := by
  constructor
  · rw [submitSeq_bestStored, bestStored_none db uid hrow]
  · intro db' score now
    rw [bestStored_score_step]
    exact le_max_left _ _

/-- Claim C3, witness: scores 5, 3, 10 from an empty table store
max(0,5,3,10) = 10. -/
theorem claim_C3_witness :
    findRow [] "42" = none ∧
    bestStored (submitSeq "42" none (Json.str "B") [(5, 0), (3, 1), (10, 2)] []) "42" =
      ([((5 : Int), (0 : Int)), (3, 1), (10, 2)].map (·.1)).foldl max 0 ∧
    ([((5 : Int), (0 : Int)), (3, 1), (10, 2)].map (·.1)).foldl max 0 = 10 :=
  ⟨rfl, (claim_C3 "42" none (Json.str "B") [(5, 0), (3, 1), (10, 2)] [] rfl).1, by decide⟩

/-- Claim C4 (confirmed): an accepted submission with score at most the
current best runs the metadata-only upsert: the row keeps its `best_score`
and `updated_at` (only `username` and `display_name` are refreshed), and the
handler reports the prior best. -/
theorem claim_C4 (db : List Player) (uid : String) (u : Option Json) (d : Json)
    (score : Int) (now : Int) (row : Player)
    (hrow : findRow db uid = some row) (hle : score ≤ row.best_score) :
    findRow (score_step db uid u d score now).1 uid =
      some { row with username := u, display_name := d } ∧
    (score_step db uid u d score now).2 = row.best_score := by
  unfold score_step
  rw [bestStored_some db uid row hrow]
  rw [if_neg (by omega)]
  exact ⟨findRow_sqlUpsertMeta_some db uid u d row.best_score now row hrow, rfl⟩

/-- Claim C4, witness: resubmitting 50 against a stored best of 100 leaves
`best_score = 100` and `updated_at = 5` in place and returns 100. -/
theorem claim_C4_witness :
    findRow (score_step [⟨"42", none, Json.str "Old", 100, 5⟩] "42" (some (Json.str "bob"))
        (Json.str "bob") 50 9).1 "42" =
      some ⟨"42", some (Json.str "bob"), Json.str "bob", 100, 5⟩ ∧
    (score_step [⟨"42", none, Json.str "Old", 100, 5⟩] "42" (some (Json.str "bob"))
        (Json.str "bob") 50 9).2 = 100 :=
  claim_C4 [⟨"42", none, Json.str "Old", 100, 5⟩] "42" (some (Json.str "bob"))
    (Json.str "bob") 50 9 ⟨"42", none, Json.str "Old", 100, 5⟩ rfl (by decide)

/-- Claim C7 (confirmed): for non-negative `limit` and `offset`, the
leaderboard is the descending-by-best window `[offset, offset + min limit 200)`
of the sorted table — a limit above the 200 cap is silently clamped — and the
returned items are ordered by `best_score` descending. -/
theorem claim_C7 (db : List Player) (limit offset : Int)
    (hl : 0 ≤ limit) (ho : 0 ≤ offset) :
    get_leaderboard db limit offset =
      (((sortRows db).drop offset.toNat).take (min limit 200).toNat).map lbProj ∧
    (get_leaderboard db limit offset).Pairwise
      (fun a b => b.best_score ≤ a.best_score) := by
  have hwin : get_leaderboard db limit offset =
      (((sortRows db).drop offset.toNat).take (min limit 200).toNat).map lbProj := by
    unfold get_leaderboard sqlSelectRows
    dsimp only
    by_cases hgt : limit > 200
    · rw [if_pos hgt, if_neg (show ¬ ((200 : Int) < 0) by omega)]
      rw [show min limit 200 = 200 from min_eq_right (by omega)]
      rfl
    · rw [if_neg hgt, if_neg (show ¬ (limit < 0) by omega)]
      rw [show min limit 200 = limit from min_eq_left (by omega)]
      rfl
  refine ⟨hwin, ?_⟩
  rw [hwin]
  apply List.pairwise_map.mpr
  have hsub : List.Sublist (((sortRows db).drop offset.toNat).take (min limit 200).toNat)
      (sortRows db) :=
    (List.take_sublist _ _).trans (List.drop_sublist _ _)
  exact (sortRows_sorted db).sublist hsub

/-- Claim C7, witness: bests 50, 10, 90, 10 with a requested limit of 10000
(clamped to 200) and offset 0 give 90, 50, 10, 10. -/
theorem claim_C7_witness :
    (0 : Int) ≤ 10000 ∧ (0 : Int) ≤ 0 ∧
    get_leaderboard db4 10000 0 =
      (((sortRows db4).drop (0 : Int).toNat).take (min 10000 200 : Int).toNat).map lbProj ∧
    get_leaderboard db4 10000 0 =
      [⟨Json.str "C", none, 90⟩, ⟨Json.str "A", none, 50⟩,
       ⟨Json.str "B", none, 10⟩, ⟨Json.str "D", none, 10⟩] :=
  ⟨by decide, by decide, (claim_C7 db4 10000 0 (by decide) (by decide)).1, rfl⟩

/-- Claim C10 (confirmed): a negative `limit` is not clamped; it reaches the
query, where SQLite treats it as unlimited, so the response holds every row
from `offset` on — `db.length - offset` rows, with no 200 cap. -/
theorem claim_C10 (db : List Player) (limit offset : Int) (h : limit < 0) :
    get_leaderboard db limit offset = ((sortRows db).drop offset.toNat).map lbProj ∧
    (get_leaderboard db limit offset).length = db.length - offset.toNat := by
  have heq : get_leaderboard db limit offset =
      ((sortRows db).drop offset.toNat).map lbProj := by
    unfold get_leaderboard sqlSelectRows
    dsimp only
    rw [if_neg (show ¬ (limit > 200) by omega), if_pos h]
    rfl
  refine ⟨heq, ?_⟩
  rw [heq, List.length_map, List.length_drop]
  congr 1
  exact (List.perm_insertionSort _ db).length_eq

/-- Claim C10, witness: 201 players and `limit = -1` return all 201 rows,
exceeding the 200-row cap. -/
theorem claim_C10_witness :
    ((-1 : Int) < 0) ∧
    (get_leaderboard bigDb (-1) 0).length = bigDb.length - (0 : Int).toNat ∧
    200 < (get_leaderboard bigDb (-1) 0).length := by
  refine ⟨by decide, (claim_C10 bigDb (-1) 0 (by decide)).2, ?_⟩
  rw [(claim_C10 bigDb (-1) 0 (by decide)).2]
  decide

/-- Claim C2, counterexample: the canonicalizer never percent-decodes — for
the blob `user=%41&hash=h` the canonical string that is signed keeps the raw
`%41` (differing from the decode-once canonical `user=A`), and the extracted
`user` value is the still-encoded `%41`. -/
theorem claim_C2_counterexample :
    data_check_string "user=%41&hash=h" = "user=%41" ∧
    canonical_decoded "user=%41&hash=h" = "user=A" ∧
    data_check_string "user=%41&hash=h" ≠ canonical_decoded "user=%41&hash=h" ∧
    user_raw "user=%41&hash=h" = some (some ['%', '4', '1']) :=
  ⟨rfl, rfl, by decide, rfl⟩

/-- Claim C2 (amended): the code keeps pairs raw through canonicalization,
signing and `user` extraction; the spec's decode-once canonicalizer agrees
with the code's canonical string exactly on blobs whose pairs decoding does
not change. -/
theorem claim_C2 (init : String)
    (h : ∀ p ∈ splitChar '&' init.data, percentDecodeChars p = p) :
    canonical_decoded init = data_check_string init := by
  unfold canonical_decoded data_check_string sortedPairs kv_raw
  dsimp only
  rw [List.map_congr_left h, List.map_id']

/-- Claim C2, witness: on an escape-free blob the two canonicalizers agree. -/
theorem claim_C2_witness :
    canonical_decoded "auth_date=1&user=42&hash=h" =
      data_check_string "auth_date=1&user=42&hash=h" :=
  claim_C2 "auth_date=1&user=42&hash=h" (by decide)

/-- Claim C6, counterexample: with a duplicated key the stable sort preserves
input order, so permuting the pairs changes the canonical string —
`a=1&a=2&hash=h` and `a=2&a=1&hash=h` have permuted pairs but different
canonical strings. -/
theorem claim_C6_counterexample :
    (splitChar '&' ("a=1&a=2&hash=h").data).Perm
      (splitChar '&' ("a=2&a=1&hash=h").data) ∧
    data_check_string "a=1&a=2&hash=h" = "a=1\na=2" ∧
    data_check_string "a=2&a=1&hash=h" = "a=2\na=1" ∧
    data_check_string "a=1&a=2&hash=h" ≠ data_check_string "a=2&a=1&hash=h" :=
  ⟨List.isPerm_iff.mp (by decide), rfl, rfl, by decide⟩

/-- Claim C6 (amended): permuting the pairs of a blob yields an identical
canonical string and an identical verification outcome, provided the
non-`hash` pairs have pairwise-distinct keys and at most one `hash=` pair is
present (with duplicate keys the stable sort preserves input order, and with
several `hash=` pairs the last one wins). -/
theorem claim_C6 (init initP : String) (tokens : List String)
    (hp : (splitChar '&' init.data).Perm (splitChar '&' initP.data))
    (hnd : ((kv_raw init).map pkey).Nodup)
    (hone : ((splitChar '&' init.data).filter
      (fun p => p.take 5 == "hash=".data)).length ≤ 1) :
    data_check_string init = data_check_string initP ∧
    check_telegram_auth_raw init tokens = check_telegram_auth_raw initP tokens := by
  have hs := sortedPairs_eq_of_perm init initP hp hnd
  have hr := recv_hash_eq_of_perm init initP hp hone
  constructor
  · unfold data_check_string
    rw [hs]
  · unfold check_telegram_auth_raw user_raw data_check_string
    rw [hs, hr]

/-- Claim C6, witness: `blob1` and its pair-reordered variant `blob1p`
canonicalize identically and verify identically. -/
theorem claim_C6_witness :
    data_check_string blob1 = data_check_string blob1p ∧
    check_telegram_auth_raw blob1 ["12345:ABC"] =
      check_telegram_auth_raw blob1p ["12345:ABC"] :=
  claim_C6 blob1 blob1p ["12345:ABC"] (List.isPerm_iff.mp (by decide))
    (by decide) (by decide)

/-- Claim C9, counterexample: with no configured credential, a blob without
a `hash` pair is rejected with reason `no_hash`, not `hash_mismatch`. -/
theorem claim_C9_counterexample :
    post_score [] ⟨[], []⟩ "a=1" 0 0 =
      (⟨401, false, some "invalid_init_data", some "no_hash", none, none⟩, ⟨[], []⟩) ∧
    "no_hash" ≠ "hash_mismatch" :=
  ⟨rfl, by decide⟩

/-- Claim C9 (amended): with no configured credential, every submission whose
blob carries a (non-empty) `hash` pair and whose `user` extraction does not
raise — correctly signed ones included — is rejected 401 `invalid_init_data`
with reason `hash_mismatch`, leaving the state untouched (a blob without a
`hash` pair gets reason `no_hash` instead); and the verifier can never succeed
with zero configured credentials. -/
theorem claim_C9 (st : ServerState) (init : String) (score : Int) (now : Int) :
    (recvFalsy (recv_hash init) = false → user_raw init ≠ none →
      post_score [] st init score now =
        (⟨401, false, some "invalid_init_data", some "hash_mismatch", none, none⟩, st)) ∧
    (check_telegram_auth_raw init []).1 = false := by
  constructor
  · intro hrf hur
    unfold post_score
    rw [check_no_match init [] hrf hur (by intro t ht; cases ht)]
    rfl
  · exact check_nil_fst_false init

/-- Claim C9, witness: the correctly signed `blob1` is still rejected with
`hash_mismatch` when the credential list is empty. -/
theorem claim_C9_witness :
    post_score [] ⟨[], []⟩ blob1 0 0 =
      (⟨401, false, some "invalid_init_data", some "hash_mismatch", none, none⟩,
       (⟨[], []⟩ : ServerState)) :=
  (claim_C9 ⟨[], []⟩ blob1 0 0).1 rfl (by decide)

/-- Claim C1, counterexample: an authenticated submission arriving within the
1-second interval after the same player's previous one (state `stC1`, both at
time 0) gets HTTP 429 with `ok: false` and no `rate_limited` or `me` field —
not the claimed 200 / `ok: true` / `rate_limited: true` shape. -/
theorem claim_C1_counterexample :
    check_telegram_auth_raw blob1 ["12345:ABC"] =
      (true, some (Json.obj [("id", Json.num 42)]), "ok") ∧
    lsGet stC1.last_scores "42" = some 0 ∧
    ((0 : Int) - 0 < 1000000) ∧
    post_score ["12345:ABC"] stC1 blob1 7 0 =
      (⟨429, false, some "too_many_requests", some "rate_limited", none, none⟩, stC1) :=
  ⟨rfl, rfl, by decide, rfl⟩

/-- Claim C1 (amended): an authenticated submission arriving sooner than the
minimum interval after the same player's previous submission is rejected with
HTTP 429 `{ok: false, error: "too_many_requests", reason: "rate_limited"}`;
no best score and no `rate_limited: true` field are returned, and the server
state (rows and rate ledger) is left unchanged. -/
theorem claim_C1 (tokens : List String) (st : ServerState) (initData : String)
    (score : Int) (now : Int) (fs : List (String × Json)) (last : Int)
    (hcheck : check_telegram_auth_raw initData tokens = (true, some (Json.obj fs), "ok"))
    (htr : pyTruthy (Json.obj fs) = true)
    (hid : pyContainsId (Json.obj fs) = some true)
    (hlast : lsGet st.last_scores (pyStr ((jget fs "id").getD Json.null)) = some last)
    (hfast : now - last < 1000000) :
    post_score tokens st initData score now =
      (⟨429, false, some "too_many_requests", some "rate_limited", none, none⟩, st) := by
  unfold post_score
  rw [hcheck]
  dsimp only
  rw [htr]
  rw [if_neg (by decide)]
  rw [hid]
  dsimp only
  rw [hlast]
  dsimp only
  rw [if_pos hfast]

/-- Claim C1, witness: the concrete rate-limited request of the
counterexample, rebuilt through the amended theorem. -/
theorem claim_C1_witness :
    post_score ["12345:ABC"] stC1 blob1 7 0 =
      (⟨429, false, some "too_many_requests", some "rate_limited", none, none⟩, stC1) :=
  claim_C1 ["12345:ABC"] stC1 blob1 7 0 [("id", Json.num 42)] 0 rfl rfl rfl rfl (by decide)

end Bugman
